import Mathlib

/-!
Verification of the git-hook execution subsystem and the commit/panel
orchestration of the gitui repository, shallowly embedded in Lean 4.

Embedded source files:
* `asyncgit/src/sync/hooks.rs` — hook detection and execution
  (`hooks_commit_msg`, `hooks_post_commit`, `hook_runable`, `run_hook`,
  `HookResult`).
* `src/components/commit.rs` — `CommitComponent::commit`, the hook-gated
  commit orchestration.
* `src/components/changes.rs` — `ChangesComponent`, the selection-bearing
  list panel (`update`, `move_selection`, `selection`, `focus_select`,
  `event`).

External processes are modelled by their observable behaviour: a hook run
is a record of exit code and captured output, and the commit-msg hook is a
function from the initial content of the temporary exchange file to its
run record together with the file content left behind at exit.  The event
queue is modelled by the list of events an operation pushes, in push
order.
-/

set_option autoImplicit false

/-- `HookResult` from `asyncgit/src/sync/hooks.rs`: either everything went
fine (`Ok`) or the hook returned an error together with a diagnostic
string (`NotOk`). -/
inductive HookResult where
  | Ok : HookResult
  | NotOk (diagnostic : String) : HookResult
deriving DecidableEq, Repr

/-- Observable behaviour of one executed hook process: its exit code and
the text captured from standard output and standard error.  (`success()`
on the Rust side holds exactly when the exit code is zero.) -/
structure HookExec where
  exitCode : Nat
  stdout : String
  stderr : String
deriving DecidableEq, Repr

/-- `run_hook` from `hooks.rs`, string level: exit code zero is `Ok`;
otherwise the diagnostic is the captured standard output followed by the
captured standard error (`format!("{}{}", out, err)`). -/
def run_hook (e : HookExec) : HookResult :=
  if e.exitCode = 0 then HookResult.Ok
  else HookResult.NotOk (e.stdout ++ e.stderr)

/-- `hook_runable` from `hooks.rs`: a hook is runnable iff its file exists
and is executable.  The two filesystem facts are passed in as booleans. -/
def hook_runable (hookExists hookExecutable : Bool) : Bool :=
  hookExists && hookExecutable

/-- `hooks_commit_msg` from `hooks.rs`.  The hook process is modelled as a
function from the initial content of the temporary exchange file (the
message written into it) to its run record together with the file content
it leaves behind.  If the hook is not runnable the function returns
`(Ok, msg)`; otherwise it runs the hook on the message and, regardless of
the exit status, re-reads the temporary file and returns its content as
the new message. -/
def hooks_commit_msg (runnable : Bool) (hook : String → HookExec × String)
    (msg : String) : HookResult × String :=
  if runnable then
    let r := hook msg
    (run_hook r.1, r.2)
  else
    (HookResult.Ok, msg)

/-- `hooks_post_commit` from `hooks.rs`: run the post-commit hook (no
arguments, no message plumbing) when runnable, otherwise `Ok`. -/
def hooks_post_commit (runnable : Bool) (hook : HookExec) : HookResult :=
  if runnable then run_hook hook else HookResult.Ok

/-- Is `c` a UTF-8 continuation byte (`0x80 ..= 0xBF`)? -/
def utf8Cont (c : Nat) : Bool :=
  0x80 ≤ c && c ≤ 0xBF

/-- UTF-8 validity of a byte sequence, the condition under which Rust's
`String::from_utf8` succeeds: ASCII bytes stand alone; `C2..DF` start a
2-byte sequence; `E0`, `E1..EC`/`EE`/`EF`, `ED` start 3-byte sequences
(with the usual overlong/surrogate restrictions on the second byte);
`F0`, `F1..F3`, `F4` start 4-byte sequences. -/
def utf8Valid : List Nat → Bool
  | [] => true
  | b :: rest =>
    if b ≤ 0x7F then utf8Valid rest
    else if 0xC2 ≤ b && b ≤ 0xDF then
      match rest with
      | c1 :: r => utf8Cont c1 && utf8Valid r
      | [] => false
    else if b = 0xE0 then
      match rest with
      | c1 :: c2 :: r =>
        (0xA0 ≤ c1 && c1 ≤ 0xBF) && utf8Cont c2 && utf8Valid r
      | _ => false
    else if (0xE1 ≤ b && b ≤ 0xEC) || b = 0xEE || b = 0xEF then
      match rest with
      | c1 :: c2 :: r => utf8Cont c1 && utf8Cont c2 && utf8Valid r
      | _ => false
    else if b = 0xED then
      match rest with
      | c1 :: c2 :: r =>
        (0x80 ≤ c1 && c1 ≤ 0x9F) && utf8Cont c2 && utf8Valid r
      | _ => false
    else if b = 0xF0 then
      match rest with
      | c1 :: c2 :: c3 :: r =>
        (0x90 ≤ c1 && c1 ≤ 0xBF) && utf8Cont c2 && utf8Cont c3 &&
          utf8Valid r
      | _ => false
    else if 0xF1 ≤ b && b ≤ 0xF3 then
      match rest with
      | c1 :: c2 :: c3 :: r =>
        utf8Cont c1 && utf8Cont c2 && utf8Cont c3 && utf8Valid r
      | _ => false
    else if b = 0xF4 then
      match rest with
      | c1 :: c2 :: c3 :: r =>
        (0x80 ≤ c1 && c1 ≤ 0x8F) && utf8Cont c2 && utf8Cont c3 &&
          utf8Valid r
      | _ => false
    else false

/-- Rust's `String::from_utf8` on a byte vector: succeeds exactly on valid
UTF-8 and then returns a string holding exactly those bytes (modelled at
the byte level, so the "string" is the byte list itself). -/
def from_utf8 (bs : List Nat) : Option (List Nat) :=
  if utf8Valid bs then some bs else none

/-- Raw output of a spawned hook process, byte level: exit code plus the
captured standard-output and standard-error bytes. -/
structure HookOutputBytes where
  exitCode : Nat
  stdout : List Nat
  stderr : List Nat
deriving DecidableEq, Repr

/-- `HookResult` at the byte level, for the byte-exact model of
`run_hook`. -/
inductive HookResultBytes where
  | Ok : HookResultBytes
  | NotOk (diagnostic : List Nat) : HookResultBytes
deriving DecidableEq, Repr

/-- `run_hook` from `hooks.rs` with its fallible steps made explicit.
The argument is `none` when the process could not be spawned at all
(`output.expect("general hook error")` then aborts the program, modelled
as result `none`).  On a zero exit code the captured output is never
decoded and the result is `Ok`.  On a nonzero exit code the source
unwraps `String::from_utf8` on stderr and then on stdout; a decoding
failure aborts (result `none`), otherwise the diagnostic is stdout
followed by stderr. -/
def run_hook_bytes (spawn : Option HookOutputBytes) : Option HookResultBytes :=
  match spawn with
  | none => none
  | some o =>
    if o.exitCode = 0 then some HookResultBytes.Ok
    else
      match from_utf8 o.stderr, from_utf8 o.stdout with
      | some err, some out => some (HookResultBytes.NotOk (out ++ err))
      | _, _ => none

/-- `NeedsUpdate` flags from `src/queue.rs` as used by the embedded
components: a global refresh (`ALL`) or a diff-panel refresh (`DIFF`). -/
inductive NeedsUpdate where
  | ALL : NeedsUpdate
  | DIFF : NeedsUpdate
deriving DecidableEq, Repr

/-- `InternalEvent` from `src/queue.rs` as used by the embedded
components: a refresh request, a user-visible message, or a confirmation
request for resetting a file. -/
inductive InternalEvent where
  | Update (u : NeedsUpdate) : InternalEvent
  | ShowMsg (msg : String) : InternalEvent
  | ConfirmResetFile (path : String) : InternalEvent
deriving DecidableEq, Repr

/-- State of `CommitComponent` from `src/components/commit.rs` (the queue
handle is modelled separately, as the list of events an operation
pushes). -/
structure CommitState where
  msg : String
  visible : Bool
  stage_empty : Bool
deriving DecidableEq, Repr

/-- `CommitComponent::commit` from `src/components/commit.rs`.  The two
hooks are passed in as their observable behaviours (runnability flag plus
run record; the commit-msg hook also maps the initial exchange-file
content to the content it leaves behind).  Returns the new component
state, the list of messages passed to the git service's `sync::commit`
(in call order), and the list of events pushed onto the queue (in push
order).  The source first runs the commit-msg hook, which rewrites
`self.msg` in place; on `NotOk` it pushes one `ShowMsg` and returns
early; otherwise it commits with the (possibly rewritten) message, runs
the post-commit hook (pushing a `ShowMsg` on `NotOk`), clears the
message, hides the dialog, and pushes `Update(ALL)`. -/
def CommitComponent.commit (s : CommitState) (cmRunnable : Bool)
    (cmHook : String → HookExec × String) (pcRunnable : Bool)
    (pcHook : HookExec) : CommitState × List String × List InternalEvent :=
  let hm := hooks_commit_msg cmRunnable cmHook s.msg
  match hm.1 with
  | HookResult.NotOk e =>
      ({ s with msg := hm.2 }, [],
        [InternalEvent.ShowMsg ("commit-msg hook error:\n" ++ e)])
  | HookResult.Ok =>
      let s1 := { s with msg := hm.2 }
      let postEvents :=
        match hooks_post_commit pcRunnable pcHook with
        | HookResult.NotOk e =>
            [InternalEvent.ShowMsg ("post-commit hook error:\n" ++ e)]
        | HookResult.Ok => []
      ({ s1 with msg := "", visible := false }, [s1.msg],
        postEvents ++ [InternalEvent.Update NeedsUpdate.ALL])

/-- Modelled from the spec: `StatusItemType` lives in asyncgit's library
root, which is not among the embedded sources; the spec lists the change
kinds Modified, New, Deleted, Other, matching the variants
`src/components/changes.rs` pattern-matches on. -/
inductive StatusItemType where
  | Modified : StatusItemType
  | New : StatusItemType
  | Deleted : StatusItemType
  | Other : StatusItemType
deriving DecidableEq, Repr

/-- `StatusItem` as used by `src/components/changes.rs`: a path and an
optional change kind (`i.path`, `i.status`). -/
structure StatusItem where
  path : String
  status : Option StatusItemType
deriving DecidableEq, Repr

/-- State of `ChangesComponent` from `src/components/changes.rs` (the
queue handle is modelled separately, as the list of events an operation
pushes). -/
structure ChangesState where
  title : String
  items : List StatusItem
  selection : Option Nat
  focused : Bool
  show_selection : Bool
  is_working_dir : Bool
deriving DecidableEq, Repr

/-- `ChangesComponent::new`: empty item list, no selection, focus flag
also initialising `show_selection`. -/
def ChangesComponent.new (title : String) (focus : Bool)
    (is_working_dir : Bool) : ChangesState :=
  { title := title, items := [], selection := none, focused := focus,
    show_selection := focus, is_working_dir := is_working_dir }

/-- `ChangesComponent::update` from `changes.rs`.  The source guards with
`hash(&self.items) != hash(list)`; `hash` comes from asyncgit's library
root, which is not among the embedded sources, and is modelled from the
spec: comparison of the two lists by content.  On a change it replaces
the list and recomputes the selection from
`self.selection.unwrap_or_default()` (`0` when absent): `None` on an
empty list, otherwise `min(old_selection, len - 1)`. -/
def ChangesComponent.update (s : ChangesState) (list : List StatusItem) :
    ChangesState :=
  if s.items ≠ list then
    let old_selection := s.selection.getD 0
    { s with
      items := list,
      selection :=
        if list.isEmpty then none
        else some (min old_selection (list.length - 1)) }
  else s

/-- `ChangesComponent::selection` from `changes.rs`: `None` when no
selection, otherwise the item at the selected index.  The source indexes
`self.items[i]` unconditionally, which aborts when out of bounds; the
bounds-checked access is modelled with `List.get?`, so an out-of-bounds
abort shows up as `none` despite `self.selection` being present. -/
def ChangesComponent.selection_acc (s : ChangesState) : Option StatusItem :=
  match s.selection with
  | none => none
  | some i => s.items.get? i

/-- `Component::focus` for `ChangesComponent`: set the focus flag. -/
def ChangesComponent.focus (s : ChangesState) (f : Bool) : ChangesState :=
  { s with focused := f }

/-- `ChangesComponent::focus_select`: `focus(f)` followed by
`show_selection = f`. -/
def ChangesComponent.focus_select (s : ChangesState) (f : Bool) :
    ChangesState :=
  { ChangesComponent.focus s f with show_selection := f }

/-- Two's-complement wrap of an unbounded integer into `i32` range
`[-2^31, 2^31)`, the result Rust's release-mode `i32` addition stores
when the exact sum overflows; on in-range values it is the identity. -/
def i32_wrap (x : Int) : Int :=
  (x + 2147483648) % 4294967296 - 2147483648

/-- `ChangesComponent::move_selection` from `changes.rs`.  Returns the
new state, the pushed events and the boolean result.  The source takes
`delta: i32`; the two `i32::try_from` conversions (of the current index
and of the list length) are modelled as range checks against `i32::MAX`,
and the final `usize::try_from` as a non-negativity check; the `i32`
addition `i + delta` wraps on overflow as in a release build (a debug
build would abort there instead).  On a non-empty list with a selection
in `i32` range it clamps the wrapped sum into `[0, items_len - 1]`,
stores it, pushes `Update(DIFF)` and returns `true`; every other path
leaves the state untouched, pushes nothing and returns `false`. -/
def ChangesComponent.move_selection (s : ChangesState) (delta : Int) :
    ChangesState × List InternalEvent × Bool :=
  let items_len := s.items.length
  if 0 < items_len then
    match s.selection with
    | some i =>
      if (i : Int) ≤ 2147483647 then
        if (items_len : Int) ≤ 2147483647 then
          let i1 : Int := min (i32_wrap ((i : Int) + delta))
            ((items_len : Int) - 1)
          let i2 : Int := max i1 0
          if 0 ≤ i2 then
            ({ s with selection := some i2.toNat },
              [InternalEvent.Update NeedsUpdate.DIFF], true)
          else (s, [], false)
        else (s, [], false)
      else (s, [], false)
    | none => (s, [], false)
  else (s, [], false)

/-- `ChangesComponent::index_add_remove`: when an item is selected,
delegate to the git service (`stage_add` when the panel shows the working
directory, `reset_stage` otherwise) and return its boolean result,
passed in here as `gitOk`; without a selection return `false`.  The panel
state itself is never modified. -/
def ChangesComponent.index_add_remove (s : ChangesState) (gitOk : Bool) :
    Bool :=
  match ChangesComponent.selection_acc s with
  | some _ => gitOk
  | none => false

/-- `ChangesComponent::dispatch_reset_workdir`: when an item is selected,
push `ConfirmResetFile` with its path and return `true`; otherwise
`false`.  Returns the pushed events and the boolean result. -/
def ChangesComponent.dispatch_reset_workdir (s : ChangesState) :
    List InternalEvent × Bool :=
  match ChangesComponent.selection_acc s with
  | some i => ([InternalEvent.ConfirmResetFile i.path], true)
  | none => ([], false)

/-- The key events `Component::event` of `ChangesComponent` reacts to
(from `src/keys.rs`): `STATUS_STAGE_FILE` (Enter), `STATUS_RESET_FILE`
(D), `MOVE_DOWN`, `MOVE_UP`; every other key is `other`. -/
inductive Key where
  | statusStageFile : Key
  | statusResetFile : Key
  | moveDown : Key
  | moveUp : Key
  | other : Key
deriving DecidableEq, Repr

/-- `Component::event` for `ChangesComponent` from `changes.rs`: only a
focused panel reacts.  Staging pushes `Update(ALL)` when the git call
succeeded and always handles the key; reset only acts on the
working-directory panel (`is_working_dir && dispatch_reset_workdir()`);
Up/Down move the selection by `∓1`/`±1`.  Returns the new state, the
pushed events and whether the event was consumed. -/
def ChangesComponent.event (s : ChangesState) (gitOk : Bool) (k : Key) :
    ChangesState × List InternalEvent × Bool :=
  if s.focused then
    match k with
    | Key.statusStageFile =>
      let evs :=
        if ChangesComponent.index_add_remove s gitOk then
          [InternalEvent.Update NeedsUpdate.ALL]
        else []
      (s, evs, true)
    | Key.statusResetFile =>
      if s.is_working_dir then
        let r := ChangesComponent.dispatch_reset_workdir s
        (s, r.1, r.2)
      else (s, [], false)
    | Key.moveDown => ChangesComponent.move_selection s 1
    | Key.moveUp => ChangesComponent.move_selection s (-1)
    | Key.other => (s, [], false)
  else (s, [], false)

/-- The selection/list well-formedness of a panel state: no selection on
an empty list, and a present selection strictly below the list length. -/
def ChangesComponent.wellFormed (s : ChangesState) : Bool :=
  match s.selection with
  | none => s.items.isEmpty
  | some i => i < s.items.length

/-- States of `ChangesComponent` reachable from construction through any
sequence of `update`, `move_selection`, `focus`, `focus_select` and
`event` operations. -/
inductive ChangesComponent.Reachable : ChangesState → Prop where
  | init (title : String) (focus is_working_dir : Bool) :
      ChangesComponent.Reachable
        (ChangesComponent.new title focus is_working_dir)
  | update (s : ChangesState) (l : List StatusItem) :
      ChangesComponent.Reachable s →
      ChangesComponent.Reachable (ChangesComponent.update s l)
  | move (s : ChangesState) (d : Int) :
      ChangesComponent.Reachable s →
      ChangesComponent.Reachable (ChangesComponent.move_selection s d).1
  | focus (s : ChangesState) (b : Bool) :
      ChangesComponent.Reachable s →
      ChangesComponent.Reachable (ChangesComponent.focus s b)
  | focusSelect (s : ChangesState) (b : Bool) :
      ChangesComponent.Reachable s →
      ChangesComponent.Reachable (ChangesComponent.focus_select s b)
  | event (s : ChangesState) (g : Bool) (k : Key) :
      ChangesComponent.Reachable s →
      ChangesComponent.Reachable (ChangesComponent.event s g k).1

/-- C2: for every message and every runnable commit-msg hook,
`hooks_commit_msg` returns as the new message the content of the
temporary exchange file after the hook exited, regardless of the exit
status; in particular a hook that writes `msg\n` to the file, prints
`rejected\n` to standard output and exits 1 yields
`(NotOk "rejected\n", "msg\n")`. -/
theorem hooks_commit_msg_returns_file_content :
    (∀ (hook : String → HookExec × String) (msg : String),
      (hooks_commit_msg true hook msg).2 = (hook msg).2) ∧
    hooks_commit_msg true
      (fun _ => (⟨1, "rejected\n", ""⟩, "msg\n")) "test" =
      (HookResult.NotOk "rejected\n", "msg\n") := by
  constructor
  · intro hook msg
    rfl
  · decide

/-- C7: `run_hook` classifies exit status zero as `Ok` and any nonzero
exit status as `NotOk` with diagnostic exactly the standard output
followed by the standard error; conversely a `NotOk` result arises only
from a nonzero exit status and carries exactly that concatenation (the
`HookResult` type itself carries a diagnostic only in the `NotOk`
case). -/
theorem run_hook_classification (e : HookExec) :
    (e.exitCode = 0 → run_hook e = HookResult.Ok) ∧
    (e.exitCode ≠ 0 →
      run_hook e = HookResult.NotOk (e.stdout ++ e.stderr)) ∧
    (∀ d, run_hook e = HookResult.NotOk d →
      e.exitCode ≠ 0 ∧ d = e.stdout ++ e.stderr) := by
  refine ⟨fun h => by simp [run_hook, h], fun h => by simp [run_hook, h], ?_⟩
  intro d hd
  by_cases h : e.exitCode = 0
  · simp [run_hook, h] at hd
  · simp [run_hook, h] at hd
    exact ⟨h, hd.symm⟩

/-- Witness for C7 at a concrete run record with a nonzero exit code. -/
theorem run_hook_classification_witness :
    run_hook ⟨1, "out", "err"⟩ = HookResult.NotOk ("out" ++ "err") :=
  (run_hook_classification ⟨1, "out", "err"⟩).2.1 (by decide)

/-- C8: when the hook file does not exist or is not executable, the hook
is not runnable, `hooks_commit_msg` returns `Ok` with the message
unchanged, and `hooks_post_commit` returns `Ok`. -/
theorem hooks_absent_ok (hookExists hookExecutable : Bool)
    (hook : String → HookExec × String) (pcHook : HookExec) (msg : String)
    (h : hookExists = false ∨ hookExecutable = false) :
    hooks_commit_msg (hook_runable hookExists hookExecutable) hook msg =
      (HookResult.Ok, msg) ∧
    hooks_post_commit (hook_runable hookExists hookExecutable) pcHook =
      HookResult.Ok := by
  have hr : hook_runable hookExists hookExecutable = false := by
    rcases h with h | h <;> simp [hook_runable, h]
  simp [hooks_commit_msg, hooks_post_commit, hr]

/-- Witness for C8: a present but non-executable hook is skipped. -/
theorem hooks_absent_ok_witness :
    hooks_commit_msg (hook_runable true false)
      (fun _ => (⟨1, "boom", ""⟩, "edited")) "test" =
      (HookResult.Ok, "test") :=
  (hooks_absent_ok true false (fun _ => (⟨1, "boom", ""⟩, "edited"))
    ⟨0, "", ""⟩ "test" (Or.inr rfl)).1

/-- C10 counterexample: a hook process that spawns, exits with code 0 and
leaves invalid UTF-8 (the byte `0xFF`) on standard output does NOT abort:
`run_hook` never decodes the captured output on the success path and
returns `Ok` normally, contradicting the claim that invalid output text
always raises an unrecoverable failure. -/
theorem run_hook_bytes_decode_counterexample :
    from_utf8 [255] = none ∧
    run_hook_bytes (some ⟨0, [255], []⟩) = some HookResultBytes.Ok := by
  constructor <;> rfl

/-- C10 amended: a spawn failure always aborts without returning a
`HookResult`; the captured output is decoded only on a nonzero exit
status, so the operation aborts on invalid UTF-8 only there; and whenever
the process spawns and either the exit status is zero or both streams
decode, the operation returns normally with `Ok` or `NotOk`. -/
theorem run_hook_bytes_fatal_amended (o : HookOutputBytes) :
    run_hook_bytes none = none ∧
    (o.exitCode ≠ 0 →
      (from_utf8 o.stdout = none ∨ from_utf8 o.stderr = none) →
      run_hook_bytes (some o) = none) ∧
    (o.exitCode = 0 ∨
      ((from_utf8 o.stdout).isSome ∧ (from_utf8 o.stderr).isSome) →
      (run_hook_bytes (some o)).isSome) := by
  refine ⟨rfl, ?_, ?_⟩
  · intro hne hdec
    simp only [run_hook_bytes, if_neg hne]
    rcases hdec with h | h
    · rw [h]
      cases from_utf8 o.stderr <;> rfl
    · rw [h]
  · intro h
    rcases h with h0 | ⟨h1, h2⟩
    · simp [run_hook_bytes, h0]
    · by_cases he : o.exitCode = 0
      · simp [run_hook_bytes, he]
      · obtain ⟨out, hout⟩ := Option.isSome_iff_exists.mp h1
        obtain ⟨err, herr⟩ := Option.isSome_iff_exists.mp h2
        simp [run_hook_bytes, he, hout, herr]

/-- Witness for C10's amended theorem: a nonzero exit with undecodable
standard error aborts. -/
theorem run_hook_bytes_fatal_amended_witness :
    run_hook_bytes (some ⟨1, [104, 105], [255]⟩) = none :=
  (run_hook_bytes_fatal_amended ⟨1, [104, 105], [255]⟩).2.1 (by decide)
    (Or.inr (by decide))

/-- C1: when the commit-msg hook returns `NotOk`, `commit` aborts: the
git service's commit is never called, the (possibly hook-edited) message
is kept, `visible` and all other state fields are untouched (the dialog
stays open), exactly one `ShowMsg` carrying the diagnostic is pushed, and
no `Update` event is pushed. -/
theorem commit_msg_hook_reject_aborts (s : CommitState) (cmRunnable : Bool)
    (cmHook : String → HookExec × String) (pcRunnable : Bool)
    (pcHook : HookExec) (e newMsg : String)
    (h : hooks_commit_msg cmRunnable cmHook s.msg =
      (HookResult.NotOk e, newMsg)) :
    CommitComponent.commit s cmRunnable cmHook pcRunnable pcHook =
      ({ s with msg := newMsg }, [],
        [InternalEvent.ShowMsg ("commit-msg hook error:\n" ++ e)]) := by
  simp only [CommitComponent.commit, h]

/-- Witness for C1: a rejecting hook that rewrites the message. -/
theorem commit_msg_hook_reject_aborts_witness :
    CommitComponent.commit ⟨"test", true, false⟩ true
      (fun _ => (⟨1, "rejected\n", ""⟩, "msg\n")) false ⟨0, "", ""⟩ =
      (⟨"msg\n", true, false⟩, [],
        [InternalEvent.ShowMsg ("commit-msg hook error:\n" ++ "rejected\n")]) :=
  commit_msg_hook_reject_aborts ⟨"test", true, false⟩ true
    (fun _ => (⟨1, "rejected\n", ""⟩, "msg\n")) false ⟨0, "", ""⟩
    "rejected\n" "msg\n" (by decide)

/-- C3: once the commit-msg gate passed, `commit` calls the git service
exactly once with the final (possibly hook-rewritten) message; a `NotOk`
post-commit hook only adds a `ShowMsg` warning carrying its diagnostic
and undoes nothing; and in both post-commit outcomes the message is
cleared, the dialog is hidden, and a single `Update(ALL)` is pushed
last. -/
theorem commit_after_gate (s : CommitState) (cmRunnable : Bool)
    (cmHook : String → HookExec × String) (pcRunnable : Bool)
    (pcHook : HookExec) (newMsg : String)
    (h : hooks_commit_msg cmRunnable cmHook s.msg =
      (HookResult.Ok, newMsg)) :
    (CommitComponent.commit s cmRunnable cmHook pcRunnable pcHook).1 =
      { s with msg := "", visible := false } ∧
    (CommitComponent.commit s cmRunnable cmHook pcRunnable pcHook).2.1 =
      [newMsg] ∧
    (∀ e, hooks_post_commit pcRunnable pcHook = HookResult.NotOk e →
      (CommitComponent.commit s cmRunnable cmHook pcRunnable pcHook).2.2 =
        [InternalEvent.ShowMsg ("post-commit hook error:\n" ++ e),
          InternalEvent.Update NeedsUpdate.ALL]) ∧
    (hooks_post_commit pcRunnable pcHook = HookResult.Ok →
      (CommitComponent.commit s cmRunnable cmHook pcRunnable pcHook).2.2 =
        [InternalEvent.Update NeedsUpdate.ALL]) := by
  refine ⟨?_, ?_, ?_, ?_⟩ <;>
    simp only [CommitComponent.commit, h]
  · intro e he
    rw [he]
    rfl
  · intro hok
    rw [hok]
    rfl

/-- Witness for C3: gate passes trivially (no commit-msg hook), the
post-commit hook exits 2 printing `warn`. -/
theorem commit_after_gate_witness :
    (CommitComponent.commit ⟨"test", true, true⟩ false
      (fun _ => (⟨0, "", ""⟩, "")) true ⟨2, "warn", ""⟩).2.2 =
      [InternalEvent.ShowMsg ("post-commit hook error:\n" ++ "warn"),
        InternalEvent.Update NeedsUpdate.ALL] :=
  (commit_after_gate ⟨"test", true, true⟩ false (fun _ => (⟨0, "", ""⟩, ""))
    true ⟨2, "warn", ""⟩ "test" (by decide)).2.2.1 "warn" (by decide)

/-- C4 counterexample: with items `[a, b]`, selection 1 and delta
2147483647 (a valid `i32`), the source's `i32` addition overflows: the
wrapped sum is `-2147483648` and the program stores selection 0, while
the claim's exact clamp formula `clamp(selection + delta, 0, length - 1)`
yields 1 — so the claim fails at this concrete input. -/
theorem move_selection_clamp_counterexample :
    (ChangesComponent.move_selection
      ⟨"t", [⟨"a", none⟩, ⟨"b", none⟩], some 1, true, true, true⟩
      2147483647).1.selection = some 0 ∧
    (max (min ((1 : Int) + 2147483647)
      ((([⟨"a", none⟩, ⟨"b", none⟩] : List StatusItem).length : Int) - 1))
      0).toNat = 1 := by
  constructor <;> decide

/-- C4 amended: `move_selection` on an empty item list is a failing
no-op (state kept, nothing pushed); on a state whose selection is
present and in bounds, with the list length in `i32` range, it stores
the clamp of the two's-complement `i32` wrap of `selection + delta` into
`[0, length - 1]`, pushes one `Update(DIFF)` and returns `true`, even
when the clamped index equals the old one; the wrapped sum equals the
exact sum `selection + delta` whenever that sum fits in `i32` — in
particular for the deltas `±1` the program issues; and on a well-formed
state a non-empty list guarantees the selection is present. -/
theorem move_selection_wrap_spec (s : ChangesState) (delta : Int)
    (hwf : ChangesComponent.wellFormed s = true)
    (hlen : s.items.length ≤ 2147483647) :
    (s.items = [] →
      ChangesComponent.move_selection s delta = (s, [], false)) ∧
    (∀ i, s.selection = some i →
      ChangesComponent.move_selection s delta =
        ({ s with
            selection := some (max (min (i32_wrap ((i : Int) + delta))
              ((s.items.length : Int) - 1)) 0).toNat },
          [InternalEvent.Update NeedsUpdate.DIFF], true)) ∧
    (∀ i, s.selection = some i → -2147483648 ≤ (i : Int) + delta →
      (i : Int) + delta ≤ 2147483647 →
      i32_wrap ((i : Int) + delta) = (i : Int) + delta) ∧
    (s.items ≠ [] → s.selection.isSome) := by
  refine ⟨?_, ?_, ?_, ?_⟩
  · intro hempty
    simp [ChangesComponent.move_selection, hempty]
  · intro i hsel
    have hi : i < s.items.length := by
      simpa [ChangesComponent.wellFormed, hsel] using hwf
    have hlenpos : 0 < s.items.length := Nat.pos_of_ne_zero (by omega)
    have hiI : (i : Int) ≤ 2147483647 := by
      have : (i : Int) < (s.items.length : Int) := by exact_mod_cast hi
      omega
    have hlenI : ((s.items.length : Int)) ≤ 2147483647 := by
      exact_mod_cast hlen
    have hnn : (0 : Int) ≤
        max (min (i32_wrap ((i : Int) + delta))
          ((s.items.length : Int) - 1)) 0 :=
      le_max_right _ _
    simp only [ChangesComponent.move_selection, hsel, if_pos hlenpos,
      if_pos hiI, if_pos hlenI, if_pos hnn]
  · intro i _ h1 h2
    unfold i32_wrap
    rw [Int.emod_eq_of_lt (by omega) (by omega)]
    omega
  · intro hne
    cases hsel : s.selection with
    | some i => rfl
    | none =>
      exfalso
      have : s.items.isEmpty = true := by
        simpa [ChangesComponent.wellFormed, hsel] using hwf
      exact hne (List.isEmpty_iff.mp this)

/-- Witness for C4's amended theorem: on a two-item list with selection
0, a delta of 5 does not overflow, clamps to index 1, pushes
`Update(DIFF)` and succeeds. -/
theorem move_selection_wrap_spec_witness :
    ChangesComponent.move_selection
      ⟨"t", [⟨"a", none⟩, ⟨"b", none⟩], some 0, true, true, true⟩ 5 =
      (⟨"t", [⟨"a", none⟩, ⟨"b", none⟩], some 1, true, true, true⟩,
        [InternalEvent.Update NeedsUpdate.DIFF], true) := by
  have h := (move_selection_wrap_spec
    ⟨"t", [⟨"a", none⟩, ⟨"b", none⟩], some 0, true, true, true⟩ 5
    (by decide) (by decide)).2.1 0 rfl
  exact h.trans (by decide)

/-- C5: when the new list differs in content from the cached one,
`update` replaces the list; an empty new list clears the selection to
`none`, and a present previous selection on a non-empty new list becomes
`min(previous, newLength - 1)` — in particular a previously valid
selection into a shorter non-empty list is clamped to the new last
index. -/
theorem update_changed_spec (s : ChangesState) (list : List StatusItem)
    (h : s.items ≠ list) :
    (ChangesComponent.update s list).items = list ∧
    (list = [] → (ChangesComponent.update s list).selection = none) ∧
    (∀ p, s.selection = some p → list ≠ [] →
      (ChangesComponent.update s list).selection =
        some (min p (list.length - 1))) := by
  refine ⟨?_, ?_, ?_⟩
  · simp [ChangesComponent.update, h]
  · intro hempty
    subst hempty
    simp [ChangesComponent.update, h]
  · intro p hp hne
    simp [ChangesComponent.update, h, hp, List.isEmpty_iff, hne]

/-- Witness for C5: a selection at index 2 of a three-item list is
clamped to 0 when the list shrinks to one differing item. -/
theorem update_changed_spec_witness :
    (ChangesComponent.update
      ⟨"t", [⟨"a", none⟩, ⟨"b", none⟩, ⟨"c", none⟩], some 2, true, true,
        false⟩ [⟨"d", none⟩]).selection = some 0 := by
  have h := (update_changed_spec
    ⟨"t", [⟨"a", none⟩, ⟨"b", none⟩, ⟨"c", none⟩], some 2, true, true,
      false⟩ [⟨"d", none⟩] (by decide)).2.2 2 rfl (by decide)
  exact h.trans (by decide)

/-- C6: `update` with a list equal in content to the cached one is a
no-op on the whole panel state, for any number of repeated calls (in
this embedding lists are values, so content equality is equality). -/
theorem update_unchanged_noop (s : ChangesState) (n : Nat) :
    (fun t => ChangesComponent.update t s.items)^[n] s = s := by
  induction n with
  | zero => rfl
  | succ n ih =>
    rw [Function.iterate_succ_apply,
      show ChangesComponent.update s s.items = s by
        simp [ChangesComponent.update]]
    exact ih

lemma changes_wf_new (t : String) (f w : Bool) :
    ChangesComponent.wellFormed (ChangesComponent.new t f w) = true := rfl

lemma changes_wf_update (s : ChangesState) (l : List StatusItem)
    (h : ChangesComponent.wellFormed s = true) :
    ChangesComponent.wellFormed (ChangesComponent.update s l) = true := by
  by_cases hc : s.items = l
  · have hnc : ¬s.items ≠ l := fun hh => hh hc
    simp only [ChangesComponent.update, if_neg hnc]
    exact h
  · by_cases hl : l.isEmpty
    · simp only [ChangesComponent.update, if_pos hc,
        ChangesComponent.wellFormed, if_pos hl]
      exact hl
    · simp only [ChangesComponent.update, if_pos hc,
        ChangesComponent.wellFormed, if_neg hl]
      have hpos : 0 < l.length := by
        cases l with
        | nil => simp at hl
        | cons a as => simp
      simp only [decide_eq_true_eq]
      exact Nat.lt_of_le_of_lt (Nat.min_le_right _ _) (by omega)

lemma changes_wf_move (s : ChangesState) (d : Int)
    (h : ChangesComponent.wellFormed s = true) :
    ChangesComponent.wellFormed (ChangesComponent.move_selection s d).1 =
      true := by
  by_cases hp : 0 < s.items.length
  · cases hsel : s.selection with
    | none =>
      simp only [ChangesComponent.move_selection, hsel, if_pos hp]
      exact h
    | some i =>
      by_cases h1 : (i : Int) ≤ 2147483647
      · by_cases h2 : ((s.items.length : Int)) ≤ 2147483647
        · have h3 : (0 : Int) ≤
              max (min (i32_wrap ((i : Int) + d))
                ((s.items.length : Int) - 1)) 0 :=
            le_max_right _ _
          simp only [ChangesComponent.move_selection, hsel, if_pos hp,
            if_pos h1, if_pos h2, if_pos h3]
          simp only [ChangesComponent.wellFormed, decide_eq_true_eq]
          have hub : max (min (i32_wrap ((i : Int) + d))
              ((s.items.length : Int) - 1)) 0 ≤ (s.items.length : Int) - 1 := by
            apply max_le (min_le_right _ _)
            omega
          omega
        · simp only [ChangesComponent.move_selection, hsel, if_pos hp,
            if_pos h1, if_neg h2]
          exact h
      · simp only [ChangesComponent.move_selection, hsel, if_pos hp,
          if_neg h1]
        exact h
  · simp only [ChangesComponent.move_selection, if_neg hp]
    exact h

lemma changes_wf_event (s : ChangesState) (g : Bool) (k : Key)
    (h : ChangesComponent.wellFormed s = true) :
    ChangesComponent.wellFormed (ChangesComponent.event s g k).1 = true := by
  by_cases hf : s.focused
  · cases k with
    | statusStageFile =>
      simp only [ChangesComponent.event, if_pos hf]
      exact h
    | statusResetFile =>
      by_cases hw : s.is_working_dir
      · simp only [ChangesComponent.event, if_pos hf, if_pos hw]
        exact h
      · simp only [ChangesComponent.event, if_pos hf, if_neg hw]
        exact h
    | moveDown =>
      simp only [ChangesComponent.event, if_pos hf]
      exact changes_wf_move s 1 h
    | moveUp =>
      simp only [ChangesComponent.event, if_pos hf]
      exact changes_wf_move s (-1) h
    | other =>
      simp only [ChangesComponent.event, if_pos hf]
      exact h
  · simp only [ChangesComponent.event, if_neg hf]
    exact h

lemma changes_wf_reachable (s : ChangesState)
    (h : ChangesComponent.Reachable s) :
    ChangesComponent.wellFormed s = true := by
  induction h with
  | init t f w => exact changes_wf_new t f w
  | update s l _ ih => exact changes_wf_update s l ih
  | move s d _ ih => exact changes_wf_move s d ih
  | focus s b _ ih => exact ih
  | focusSelect s b _ ih => exact ih
  | event s g k _ ih => exact changes_wf_event s g k ih

/-- C9: every state reachable from construction through `update`,
`move_selection`, `focus`, `focus_select` and `event` is well-formed —
the selection is present exactly when the item list is non-empty, and a
present selection index is strictly below the list length; consequently
the `selection()` accessor's list indexing is always in bounds, and an
`update` that finds the previous selection absent and the new list
non-empty yields selection index 0. -/
theorem changes_reachable_invariant (s : ChangesState)
    (h : ChangesComponent.Reachable s) :
    ChangesComponent.wellFormed s = true ∧
    (s.selection = none ↔ s.items = []) ∧
    (s.selection.isSome → (ChangesComponent.selection_acc s).isSome) ∧
    (∀ l, s.selection = none → l ≠ [] →
      (ChangesComponent.update s l).selection = some 0) := by
  have hwf := changes_wf_reachable s h
  refine ⟨hwf, ?_, ?_, ?_⟩
  · cases hsel : s.selection with
    | none =>
      simp only [ChangesComponent.wellFormed, hsel] at hwf
      simpa using List.isEmpty_iff.mp hwf
    | some i =>
      simp only [ChangesComponent.wellFormed, hsel, decide_eq_true_eq]
        at hwf
      constructor
      · intro hc
        exact absurd hc (by simp)
      · intro hc
        rw [hc] at hwf
        simp at hwf
  · intro hsome
    obtain ⟨i, hsel⟩ := Option.isSome_iff_exists.mp hsome
    simp only [ChangesComponent.wellFormed, hsel, decide_eq_true_eq]
      at hwf
    simp only [ChangesComponent.selection_acc, hsel]
    exact Option.isSome_iff_exists.mpr
      ⟨s.items.get ⟨i, hwf⟩, List.get?_eq_get hwf⟩
  · intro l hsel hne
    simp only [ChangesComponent.wellFormed, hsel] at hwf
    have hitems : s.items = [] := List.isEmpty_iff.mp hwf
    have hc : s.items ≠ l := by
      rw [hitems]
      exact fun hh => hne hh.symm
    have hl : l.isEmpty = false := by
      cases l with
      | nil => exact absurd rfl hne
      | cons a as => rfl
    simp [ChangesComponent.update, hc, hl, hsel]

/-- Witness for C9: updating a fresh (empty, unselected) panel with a
one-item list selects index 0. -/
theorem changes_reachable_invariant_witness :
    (ChangesComponent.update (ChangesComponent.new "t" true true)
      [⟨"a", none⟩]).selection = some 0 :=
  (changes_reachable_invariant (ChangesComponent.new "t" true true)
    (ChangesComponent.Reachable.init "t" true true)).2.2.2
    [⟨"a", none⟩] rfl (by simp)
